import Mathlib

/-!
Verification of the xmlfixer distractor-generation and math-validation engine.

Shallow embedding of the two Python entry points:
  * `src/server/distractor-improver.py`        (class DistractorImprover)
  * `src/attached_assets/potion_improver_1752529835533.py` (class PotionImprover)

Python machine details are modelled as follows: Python `int` is `Int`
(arbitrary precision, faithful), `//` is `Int.fdiv` (floor division),
`float('inf')` as the absent case of an `Option Int` ceiling, Python `set`
as `Finset Int`, the process-wide random source as an explicit stream of
draws `σ : Nat → Nat`, the unbounded `while` loop as a fuel-indexed
recursion returning `none` when the fuel runs out, and `random.shuffle`
as an explicit permutation parameter.  Strings are Lean `String`s; the
regular expressions of the source are implemented character by character
with the same semantics on the (ASCII) texts involved.
-/

namespace Xmlfixer

/-! ### String and regex helpers -/

/-- Python `\w` on ASCII text: letters, digits and underscore. -/
def isWordChar (c : Char) : Bool := c.isAlphanum || c = '_'

/-- Substring test: Python's `needle in hay` on strings (as char lists). -/
def containsSub (needle : List Char) : List Char → Bool
  | [] => needle.isEmpty
  | c :: rest => needle.isPrefixOf (c :: rest) || containsSub needle rest

/-- Python `pat in t` for strings. -/
def containsStr (t : String) (pat : String) : Bool :=
  containsSub pat.toList t.toList

/-- Python `str.lower()` (ASCII). -/
def pyLower (s : String) : String := ⟨s.toList.map Char.toLower⟩

/-- Python `str.strip()`. -/
def pyStrip (s : String) : String :=
  ⟨((s.toList.dropWhile Char.isWhitespace).reverse.dropWhile Char.isWhitespace).reverse⟩

/-- Value of a (non-empty) digit run, as `int()` computes it. -/
def digitsToNat (ds : List Char) : Nat :=
  ds.foldl (fun a c => a * 10 + (c.toNat - '0'.toNat)) 0

/-- State machine implementing `re.findall(r'\b\d+\b', text)`: emits every
maximal digit run whose neighbours (if any) are non-word characters.
Arguments: previous char is a word char; digit run in progress (reversed
digits, flag whether its left boundary was a `\b`); remaining input. -/
def extractAux : Bool → Option (List Char × Bool) → List Char → List (List Char)
  | _, cur, [] =>
    match cur with
    | some (run, true) => [run.reverse]
    | _ => []
  | prevW, cur, c :: cs =>
    if c.isDigit then
      match cur with
      | some (run, ok) => extractAux true (some (c :: run, ok)) cs
      | none => extractAux true (some ([c], !prevW)) cs
    else
      match cur with
      | some (run, ok) =>
        if ok && !isWordChar c then run.reverse :: extractAux (isWordChar c) none cs
        else extractAux (isWordChar c) none cs
      | none => extractAux (isWordChar c) none cs

/-- `extract_numbers` (both files): `[int(m) for m in re.findall(r'\b\d+\b', text)]`. -/
def extract_numbers (text : String) : List Int :=
  (extractAux false none text.toList).map (fun ds => (digitsToNat ds : Int))

/-- State machine for `re.findall(r'\d+', text)` (no word boundaries):
every maximal digit run. -/
def digitRunsAux : Option (List Char) → List Char → List (List Char)
  | cur, [] =>
    match cur with
    | some r => [r.reverse]
    | none => []
  | cur, c :: cs =>
    if c.isDigit then digitRunsAux (some (c :: cur.getD [])) cs
    else
      match cur with
      | some r => r.reverse :: digitRunsAux none cs
      | none => digitRunsAux none cs

/-- First integer of a choice text: `int(re.findall(r'\d+', choice)[0])`
when a digit run exists. -/
def firstNumber (s : String) : Option Int :=
  (digitRunsAux none s.toList).head?.map (fun ds => (digitsToNat ds : Int))

/-- Python `max(list)` on a non-empty list (default 0 never used by callers). -/
def pyMax (l : List Int) : Int := (l.max?).getD 0

/-- Python `min(list)` on a non-empty list (default 0 never used by callers). -/
def pyMin (l : List Int) : Int := (l.min?).getD 0

/-- Python `str.split()` : split on whitespace runs, discarding empties. -/
def pySplitAux : List Char → List Char → List String
  | acc, [] => if acc.isEmpty then [] else [⟨acc.reverse⟩]
  | acc, c :: cs =>
    if c.isWhitespace then
      if acc.isEmpty then pySplitAux [] cs else ⟨acc.reverse⟩ :: pySplitAux [] cs
    else pySplitAux (c :: acc) cs

/-- Python `str.split()` with no argument. -/
def pySplit (s : String) : List String := pySplitAux [] s.toList

/-- Python `str.isdigit()` (ASCII). -/
def pyIsDigit (s : String) : Bool := !s.toList.isEmpty && s.toList.all Char.isDigit

/-- Counts `re.findall(r'\b\w+\b', text)`: the number of maximal word-char runs. -/
def countWordsAux : Bool → List Char → Nat
  | _, [] => 0
  | inWord, c :: cs =>
    let w := isWordChar c
    (if w && !inWord then 1 else 0) + countWordsAux w cs

/-- `count_words` (potion file). -/
def count_words (text : String) : Nat := countWordsAux false text.toList

/-- Python `int(s)` on a string: optional surrounding whitespace, optional
sign, then a non-empty digit run; anything else raises (here: `none`). -/
def pyParseInt (s : String) : Option Int :=
  let cs := (pyStrip s).toList
  match cs with
  | '-' :: ds => if !ds.isEmpty && ds.all Char.isDigit then some (-(digitsToNat ds : Int)) else none
  | '+' :: ds => if !ds.isEmpty && ds.all Char.isDigit then some ((digitsToNat ds : Int)) else none
  | ds => if !ds.isEmpty && ds.all Char.isDigit then some ((digitsToNat ds : Int)) else none

/-- Python `str(list_of_ints)`, as interpolated by the f-string diagnostics. -/
def pyListRepr (ns : List Int) : String :=
  "[" ++ String.intercalate ", " (ns.map toString) ++ "]"

/-- Python string `<` (lexicographic by code point), char-level. -/
def pyStrLtChars : List Char → List Char → Bool
  | [], [] => false
  | [], _ :: _ => true
  | _ :: _, [] => false
  | a :: as, b :: bs => if a < b then true else if b < a then false else pyStrLtChars as bs

/-- Python string `<=`, used by `sorted()` on strings. -/
def pyStrLe (a b : String) : Bool := !pyStrLtChars b.toList a.toList

/-- Python `s.split('.')`, char-level. -/
def splitDotAux : List Char → List Char → List String
  | acc, [] => [⟨acc.reverse⟩]
  | acc, c :: cs =>
    if c = '.' then ⟨acc.reverse⟩ :: splitDotAux [] cs else splitDotAux (c :: acc) cs

def pySplitOnDot (s : String) : List String := splitDotAux [] s.toList

/-! ### Operation classifier (`detect_operation_and_calculate`, identical in
both files) -/

def addition_words : List String :=
  ["add", "adds", "plus", "total", "together", "sum", "altogether", "combined", "more"]

def subtraction_words : List String :=
  ["subtract", "minus", "left", "remaining", "difference", "fewer", "less", "need", "needs"]

def multiplication_words : List String :=
  ["multiply", "times", "each", "per", "groups of", "needed", "total"]

def division_words : List String :=
  ["divide", "split", "equally", "share", "groups", "each group", "evenly", "among", "brew", "make"]

/-- `any(word in text_lower for word in ws)`. -/
def matchesAny (t : String) (ws : List String) : Bool :=
  ws.any (fun w => containsStr t w)

/-- `detect_operation_and_calculate` (lines 24-56 server / 48-82 potion,
identical).  Returns `(value?, operation-or-reason)`. -/
def detect_operation_and_calculate (question_text : String) (numbers : List Int) :
    Option Int × String :=
  if numbers.length < 2 then (none, "insufficient_numbers")
  else if matchesAny (pyLower question_text) addition_words then
    (some numbers.sum, "addition")
  else if matchesAny (pyLower question_text) subtraction_words then
    if containsStr (pyLower question_text) "how many more"
        || (containsStr (pyLower question_text) "how many"
              && containsStr (pyLower question_text) "need") then
      (some (pyMax numbers - pyMin numbers), "subtraction")
    else
      (some (numbers.getD 0 0 - numbers.getD 1 0), "subtraction")
  else if matchesAny (pyLower question_text) multiplication_words then
    if containsStr (pyLower question_text) "per"
        || containsStr (pyLower question_text) "each" then
      (some (numbers.getD 0 0 * numbers.getD 1 0), "multiplication")
    else
      (some (numbers.getD 0 0 * numbers.getD 1 0), "multiplication")
  else if matchesAny (pyLower question_text) division_words then
    if numbers.getD 1 0 ≠ 0 then
      (some (Int.fdiv (numbers.getD 0 0) (numbers.getD 1 0)), "division")
    else
      (none, "division_by_zero")
  else (none, "operation_unclear")

/-! ### Math validator (`validate_math_comprehensive`, potion lines 84-104).
The broadly caught exception branch of the source is unreachable here: every
operation of the body is total in this model. -/

/-- `validate_math_comprehensive`.  The `choices` argument is unused, as in
the source. -/
def validate_math_comprehensive (question_text : String) (_choices : List String)
    (correct_answer : String) : Bool × String :=
  match (detect_operation_and_calculate question_text (extract_numbers question_text)).1 with
  | none =>
    (true, "Cannot validate: " ++
      (detect_operation_and_calculate question_text (extract_numbers question_text)).2)
  | some expected =>
    match extract_numbers correct_answer with
    | [] => (true, "No number in correct answer - assuming valid")
    | a :: _ =>
      if a = expected then
        (true, "Math correct: " ++
          (detect_operation_and_calculate question_text (extract_numbers question_text)).2)
      else
        (false, "Math error: " ++
          (detect_operation_and_calculate question_text (extract_numbers question_text)).2 ++
          " of " ++ pyListRepr (extract_numbers question_text) ++
          " should be " ++ toString expected ++ ", got " ++ toString a)

/-! ### Triviality detector (`has_trivial_distractors`, potion lines 106-123).
The `except` branch of the source is unreachable here: extraction and
sorting are total. -/

/-- `has_trivial_distractors`. -/
def has_trivial_distractors (choices : List String) : Bool :=
  if 3 ≤ (choices.filterMap firstNumber).length then
    ((List.insertionSort (· ≤ ·) (choices.filterMap firstNumber)).zip
        (List.insertionSort (· ≤ ·) (choices.filterMap firstNumber)).tail).all
      (fun p => decide (p.2 - p.1 ≤ 2)) &&
      decide (pyMax (List.insertionSort (· ≤ ·) (choices.filterMap firstNumber)) -
        pyMin (List.insertionSort (· ≤ ·) (choices.filterMap firstNumber)) ≤ 6)
  else false

/-! ### Distractor synthesizer (`generate_smart_distractors`,
server lines 58-180 / potion lines 125-248) -/

/-- `self.grade_limits.get(grade, float('inf'))`: the table maps
1..5 to finite ceilings; grade 6 is explicitly `float('inf')` and every
other grade falls back to the `.get` default `float('inf')`, both `none`. -/
def grade_limits (grade : Int) : Option Int :=
  if grade = 1 then some 20
  else if grade = 2 then some 100
  else if grade = 3 then some 1000
  else if grade = 4 then some 10000
  else if grade = 5 then some 100000
  else none

/-- `d <= limit` with `limit` possibly `float('inf')`. -/
def leLimit (d : Int) : Option Int → Bool
  | none => true
  | some l => decide (d ≤ l)

/-- `num > limit` with `limit` possibly `float('inf')`. -/
def exceedsLimit (n : Int) : Option Int → Bool
  | none => false
  | some l => decide (l < n)

/-- The two near-verbatim copies of the synthesizer differ in two guards
(division candidates in the addition/subtraction branches and in the
priority list). -/
inductive Variant
  | server
  | potion
deriving DecidableEq

/-- Error-pattern candidate pool of the server file (lines 75-129): the body
of `if len(numbers) >= 2`, including the general perturbations.  The
addition and subtraction branches add `numbers[0] // numbers[1]` only when
additionally `numbers[0] >= numbers[1]`. -/
def buildPool_server (operation : String) (ns : List Int) (correct : Int) : Finset Int :=
  let n0 := ns.getD 0 0
  let n1 := ns.getD 1 0
  let base : Finset Int :=
    if operation = "addition" then
      {|n0 - n1|} ∪
        (if n1 ≠ 0 then {n0 * n1} ∪ (if n0 ≥ n1 then {Int.fdiv n0 n1} else ∅) else ∅) ∪
        {correct + 1, correct - 1, n0, n1}
    else if operation = "subtraction" then
      {n0 + n1} ∪
        (if n1 ≠ 0 then {n0 * n1} ∪ (if n0 ≥ n1 then {Int.fdiv n0 n1} else ∅) else ∅) ∪
        {n1 - n0, correct + 1, correct - 1}
    else if operation = "multiplication" then
      {n0 + n1, |n0 - n1|} ∪ (if n1 ≠ 0 then {Int.fdiv n0 n1} else ∅) ∪
        {correct + n0, correct - n0, n0}
    else if operation = "division" then
      {n0 + n1, |n0 - n1|, n0 * n1, n0, n1, correct + 1}
    else ∅
  base ∪ {correct + 2, correct - 2, correct * 2} ∪
    (if correct > 2 then {Int.fdiv correct 2} else ∅)

/-- Error-pattern candidate pool of the potion file (lines 142-194): same as
the server pool except that the addition and subtraction branches add
`numbers[0] // numbers[1]` whenever `numbers[1] != 0`. -/
def buildPool_potion (operation : String) (ns : List Int) (correct : Int) : Finset Int :=
  let n0 := ns.getD 0 0
  let n1 := ns.getD 1 0
  let base : Finset Int :=
    if operation = "addition" then
      {|n0 - n1|} ∪
        (if n1 ≠ 0 then {n0 * n1, Int.fdiv n0 n1} else ∅) ∪
        {correct + 1, correct - 1, n0, n1}
    else if operation = "subtraction" then
      {n0 + n1} ∪
        (if n1 ≠ 0 then {n0 * n1, Int.fdiv n0 n1} else ∅) ∪
        {n1 - n0, correct + 1, correct - 1}
    else if operation = "multiplication" then
      {n0 + n1, |n0 - n1|} ∪ (if n1 ≠ 0 then {Int.fdiv n0 n1} else ∅) ∪
        {correct + n0, correct - n0, n0}
    else if operation = "division" then
      {n0 + n1, |n0 - n1|, n0 * n1, n0, n1, correct + 1}
    else ∅
  base ∪ {correct + 2, correct - 2, correct * 2} ∪
    (if correct > 2 then {Int.fdiv correct 2} else ∅)

def buildPool : Variant → String → List Int → Int → Finset Int
  | .server => buildPool_server
  | .potion => buildPool_potion

/-- `random.choice([-5, -3, -2, 2, 3, 5, 7])`'s sample space. -/
def offsetList : List Int := [-5, -3, -2, 2, 3, 5, 7]

/-- Acceptance test of the backfill loop:
`candidate > 0 and candidate != correct and candidate <= limit`. -/
def backfillCheck (limit : Option Int) (correct candidate : Int) : Bool :=
  decide (0 < candidate) && decide (candidate ≠ correct) && leLimit candidate limit

/-- The `while len(distractors) < 3` backfill loop, with the random draws
given by the stream `σ` (draw `i` picks `offsetList[σ i % 7]`) and an
explicit fuel bound; `none` models non-termination within the fuel. -/
def backfill (limit : Option Int) (correct : Int) (σ : Nat → Nat) :
    Nat → Nat → Finset Int → Option (Finset Int)
  | _, 0, pool => if 3 ≤ pool.card then some pool else none
  | i, fuel + 1, pool =>
    if 3 ≤ pool.card then some pool
    else
      backfill limit correct σ (i + 1) fuel
        (if backfillCheck limit correct (correct + offsetList.getD (σ i % 7) 0) then
          insert (correct + offsetList.getD (σ i % 7) 0) pool
        else pool)

/-- A deterministic, kernel-computable enumeration of a `Finset Int` (used
to model `list(distractors)`: the Python set-iteration order is arbitrary,
and every property proved about the selection is order-independent). -/
def finsetSort (s : Finset Int) : List Int :=
  Quot.liftOn s.1 (fun l => List.insertionSort (· ≤ ·) l)
    (fun l1 l2 h =>
      List.eq_of_perm_of_sorted
        ((List.perm_insertionSort _ l1).trans (h.trans (List.perm_insertionSort _ l2).symm))
        (List.sorted_insertionSort _ l1) (List.sorted_insertionSort _ l2))

lemma mem_finsetSort {s : Finset Int} {x : Int} : x ∈ finsetSort s ↔ x ∈ s := by
  rcases s with ⟨ms, hnd⟩
  induction ms using Quot.inductionOn with
  | _ l =>
    show x ∈ List.insertionSort (· ≤ ·) l ↔ _
    rw [List.mem_insertionSort]
    exact Iff.rfl

lemma finsetSort_nodup (s : Finset Int) : (finsetSort s).Nodup := by
  rcases s with ⟨ms, hnd⟩
  induction ms using Quot.inductionOn with
  | _ l =>
    exact ((List.perm_insertionSort _ l).nodup_iff).mpr hnd

lemma finsetSort_length (s : Finset Int) : (finsetSort s).length = s.card := by
  rcases s with ⟨ms, hnd⟩
  induction ms using Quot.inductionOn with
  | _ l =>
    exact (List.perm_insertionSort _ l).length_eq

/-- The draw sequence used by the termination proof: indices 3, 4, 5 of
the offset list, i.e. offsets 2, 3, 5. -/
def drawSeq : Nat → Nat := fun i => 3 + i

/-- Membership test against the canonical wrong-operation results used by
the prioritization step (lines 150-152 server / 215-217 potion).  The
Python list holds `None` in place of a guarded entry whose guard fails, and
an integer never equals `None`. -/
def priorityPred (v : Variant) (ns : List Int) (d : Int) : Bool :=
  let n0 := ns.getD 0 0
  let n1 := ns.getD 1 0
  decide (d = n0 + n1) || decide (d = |n0 - n1|) ||
    (decide (n1 ≠ 0) && decide (d = n0 * n1)) ||
    ((match v with
      | .server => decide (n1 ≠ 0) && decide (n0 ≥ n1)
      | .potion => decide (n1 ≠ 0)) && decide (d = Int.fdiv n0 n1))

/-- Selection of the best 3 distractors (lines 143-162 server / 208-227
potion) from an enumeration `dl` of the pool. -/
def selectFinal (v : Variant) (ns : List Int) (dl : List Int) : List Int :=
  if 2 ≤ ns.length then
    if 0 < 3 - ((dl.filter (fun d => priorityPred v ns d)).take 3).length then
      (dl.filter (fun d => priorityPred v ns d)).take 3 ++
        (dl.filter (fun d => !(dl.filter (fun d => priorityPred v ns d)).contains d)).take
          (3 - ((dl.filter (fun d => priorityPred v ns d)).take 3).length)
    else (dl.filter (fun d => priorityPred v ns d)).take 3
  else dl.take 3

/-- Numeric core of `generate_smart_distractors`: computes `correct` and the
list `final_distractors` (the unordered Python set is enumerated in sorted
order; every property proved below is order-independent). -/
def generateCore (v : Variant) (question_text correct_answer : String) (grade : Int)
    (σ : Nat → Nat) (fuel : Nat) : Option (Int × List Int) :=
  match extract_numbers correct_answer with
  | [] => none
  | correct :: _ =>
    match backfill (grade_limits grade) correct σ 0 fuel
        (((if 2 ≤ (extract_numbers question_text).length then
              buildPool v (detect_operation_and_calculate question_text
                (extract_numbers question_text)).2 (extract_numbers question_text) correct
            else ∅).erase correct).filter
          (fun d => 0 < d ∧ leLimit d (grade_limits grade) = true)) with
    | none => none
    | some pool2 =>
      some (correct, selectFinal v (extract_numbers question_text) (finsetSort pool2))

/-- Unit detection of the server file (lines 164-170): first word of the
correct answer that is not all digits, not in the stop list, and longer
than 2 characters. -/
def unitServer (correct_answer : String) : String :=
  match (pySplit correct_answer).find? (fun w =>
      !pyIsDigit w &&
        !(["crystal", "vials", "phoenix", "healing", "the", "a", "an", "is", "are"].contains w) &&
        decide (2 < w.length)) with
  | some w => " " ++ pyLower w
  | none => ""

/-- `generate_smart_distractors` of the server file: the three formatted
distractor strings. -/
def generate_smart_distractors_server (question_text correct_answer : String) (grade : Int)
    (σ : Nat → Nat) (fuel : Nat) : Option (List String) :=
  (generateCore .server question_text correct_answer grade σ fuel).map
    (fun r => r.2.map (fun d => toString d ++ unitServer correct_answer))

/-- Unit detection of the potion file (lines 230-235): fixed vocabulary. -/
def unit_patterns : List String :=
  ["grams", "meters", "feathers", "potions", "bottles", "ingredients", "drops", "parts"]

def unitPotion (correct_answer : String) : String :=
  match unit_patterns.find? (fun p => containsStr (pyLower correct_answer) p) with
  | some p => " " ++ p
  | none => ""

/-- `generate_smart_distractors` of the potion file: the correct value plus
the three distractors, formatted and shuffled (`perm` stands for
`random.shuffle`). -/
def generate_smart_distractors_potion (question_text correct_answer : String) (grade : Int)
    (σ : Nat → Nat) (fuel : Nat) (perm : List String → List String) : Option (List String) :=
  (generateCore .potion question_text correct_answer grade σ fuel).map
    (fun r =>
      let unit := unitPotion correct_answer
      perm ((toString r.1 ++ unit) :: r.2.map (fun d => toString d ++ unit)))

/-! ### Batch path: `clean_choice_text` and `improve_question`
(potion lines 250-372) -/

/-- One application of the group `[A-D][:.]?\s*` of the label-stripping
regex: strips a leading A-D, an optional colon or period, then whitespace;
`none` when the leading character is not A-D. -/
def stripLabelGroup : List Char → Option (List Char)
  | [] => none
  | c :: rest =>
    if c = 'A' || c = 'B' || c = 'C' || c = 'D' then
      let rest' :=
        match rest with
        | d :: r2 => if d = ':' || d = '.' then r2 else rest
        | [] => rest
      some (rest'.dropWhile Char.isWhitespace)
    else none

/-- `clean_choice_text` (lines 250-253):
`re.sub(r'^[A-D][:.]?\s*([A-D][:.]?\s*)?', '', choice_text.strip()).strip()`.
The anchored regex removes one label group and, greedily, an optional
second one. -/
def clean_choice_text (choice_text : String) : String :=
  let cs := (pyStrip choice_text).toList
  let cs :=
    match stripLabelGroup cs with
    | none => cs
    | some r1 =>
      match stripLabelGroup r1 with
      | none => r1
      | some r2 => r2
  pyStrip ⟨cs⟩

/-- One question record as handed to `improve_question` (the XML field
reads of lines 259-267, assumed well-typed; a malformed record would be
caught by the outer `except`, which is out of scope of the claims). -/
structure Question where
  id : String
  grade : Int
  domain : String
  standard : String
  questionText : String
  correctAnswer : String
  choices : List String
  explanation : String
  theme : String

/-- The output record built by the assembly phase (lines 321-367);
`metaCreated` stands for `datetime.now().isoformat()`, passed in by the
caller of the model. -/
structure NewQuestion where
  id : String
  grade : Int
  domain : String
  standard : String
  theme : String
  status : String
  stem : String
  choices : List (String × String)
  answerKey : String
  answerText : String
  explanation : String
  metaTier : String
  metaCreated : String
deriving DecidableEq

/-- `create_question_hash` (lines 44-46): md5 of
`question_text + '|' + '|'.join(sorted(choices))`; md5 is modelled as the
identity on the hashed content (collisions are ignored). -/
def create_question_hash (question_text : String) (choices : List String) : String :=
  question_text ++ "|" ++
    String.intercalate "|" (List.insertionSort (fun a b => pyStrLe a b = true) choices)

/-- `self.valid_domains` (lines 30-34) with the `.get(grade, [])` default. -/
def valid_domains (grade : Int) : List String :=
  if grade = 1 || grade = 2 then ["OA", "NBT", "MD", "G"]
  else if grade = 3 || grade = 4 || grade = 5 then ["OA", "NBT", "NF", "MD", "G"]
  else if grade = 6 then ["RP", "EE", "G", "SP", "NS"]
  else []

/-- Validation phase of `improve_question` (lines 269-301): duplicate
check, standard alignment, grade-level number limits, word count, and math
validation; `some reason` is the deletion reason, `none` means the
question proceeds to the improvement phase. -/
def validatePhase (seen : List String) (q : Question) : Option String :=
  let question_hash := create_question_hash q.questionText q.choices
  if seen.contains question_hash then some "Duplicate question"
  else
    let parts := pySplitOnDot q.standard
    match pyParseInt (parts.getD 0 ""), parts.get? 1 with
    | some standard_grade, some standard_domain =>
      if standard_grade ≠ q.grade || standard_domain ≠ q.domain then
        some "Invalid standard alignment"
      else if !(valid_domains q.grade).contains q.domain then
        some ("Invalid domain " ++ q.domain ++ " for grade " ++ toString q.grade)
      else
        let numbers := extract_numbers q.questionText
        let limit := grade_limits q.grade
        if numbers.any (fun n => exceedsLimit n limit) then
          some ("Numbers exceed grade " ++ toString q.grade ++ " limits")
        else if 30 < count_words q.questionText then some "Question too long"
        else
          let mv := validate_math_comprehensive q.questionText q.choices q.correctAnswer
          if !mv.1 then some ("Mathematical error: " ++ mv.2) else none
    | _, _ => some "Invalid standard format"

/-- The choice list after the improvement phase (lines 303-316): trivial
distractor sets are regenerated when the synthesizer succeeds, otherwise
the original choices are kept. -/
def improvedChoices (σ : Nat → Nat) (fuel : Nat) (perm : List String → List String)
    (q : Question) : List String :=
  if has_trivial_distractors q.choices then
    match generate_smart_distractors_potion q.questionText q.correctAnswer q.grade σ fuel perm with
    | some new_choices => new_choices
    | none => q.choices
  else q.choices

/-- The label assignment loop `choice_labels[i]` of lines 336-344.  A fifth
choice raises `IndexError` (modelled as `none`). -/
def assignLabels (labels : List String) : Nat → List String → Option (List (String × String))
  | _, [] => some []
  | i, c :: cs =>
    match labels.get? i with
    | none => none
    | some lab => (assignLabels labels (i + 1) cs).map (fun rest => (lab, c) :: rest)

def choice_labels : List String := ["A", "B", "C", "D"]

/-- The XML element built at lines 321-367, as a record. -/
def mkNewQuestion (q : Question) (now : String) (cs : List (String × String))
    (key : String) : NewQuestion :=
  { id := q.id, grade := q.grade, domain := q.domain, standard := q.standard,
    theme := q.theme, status := "completed", stem := q.questionText,
    choices := cs, answerKey := key,
    answerText := clean_choice_text q.correctAnswer,
    explanation := q.explanation, metaTier := "1", metaCreated := now }

/-- Answer-key reconciliation (lines 339-354): the key goes to the (last)
labelled choice whose text equals the cleaned correct answer; when none
matches, the correct answer overwrites choice A (`choices_elem[0]`, an
`IndexError` on an empty choice list, caught as a `Processing error`). -/
def assembleQuestion (q : Question) (now : String)
    (labeled : List (String × String)) : Option NewQuestion × String :=
  match (labeled.filter (fun p =>
      pyStrip p.2 = pyStrip (clean_choice_text q.correctAnswer))).getLast? with
  | some p =>
    (some (mkNewQuestion q now labeled p.1), "Successfully improved to production quality")
  | none =>
    match labeled with
    | [] => (none, "Processing error: list index out of range")
    | (l0, _) :: rest =>
      (some (mkNewQuestion q now ((l0, clean_choice_text q.correctAnswer) :: rest) "A"),
        "Successfully improved to production quality")

/-- `improve_question` (lines 255-372).  `σ`/`fuel` drive the synthesizer's
random backfill, `perm` models `random.shuffle`, `now` models
`datetime.now().isoformat()`.  An `IndexError` escaping the assembly loop
is caught by the outer `except` as a `Processing error` deletion. -/
def improve_question (seen : List String) (σ : Nat → Nat) (fuel : Nat)
    (perm : List String → List String) (now : String) (q : Question) :
    Option NewQuestion × String :=
  match validatePhase seen q with
  | some reason => (none, reason)
  | none =>
    match assignLabels choice_labels 0
        ((improvedChoices σ fuel perm q).map clean_choice_text) with
    | none => (none, "Processing error: list index out of range")
    | some labeled => assembleQuestion q now labeled

end Xmlfixer

namespace Xmlfixer

example : extract_numbers "add 2 and 3" = [2, 3] := by decide
example : extract_numbers "ab12 and 7" = [7] := by decide
example : extract_numbers "How many more vials: 15 or 9?" = [15, 9] := by decide
example : detect_operation_and_calculate "add 2 and 3" [2, 3] = (some 5, "addition") := by decide
example : detect_operation_and_calculate "split 12 among 4" [12, 4] = (some 3, "division") := by decide
example : firstNumber "5 potions" = some 5 := by decide
example : count_words "add 2 and 3" = 4 := by decide

/-! ### Helper lemmas about the synthesizer pipeline -/

lemma length_filter_partition (p : α → Bool) (l : List α) :
    (l.filter p).length + (l.filter (fun x => !p x)).length = l.length := by
  induction l with
  | nil => rfl
  | cons a t ih =>
    by_cases h : p a
    · simp [List.filter, h, ← ih]; omega
    · have h' : p a = false := by simpa using h
      simp [List.filter, h', ← ih]; omega

lemma contains_eq_of_filter {p : α → Bool} [BEq α] [LawfulBEq α] {dl : List α} {x : α}
    (hx : x ∈ dl) : (dl.filter p).contains x = p x := by
  by_cases hpx : p x
  · have : x ∈ dl.filter p := List.mem_filter.mpr ⟨hx, hpx⟩
    simp [List.elem_iff, this, hpx]
  · have h' : p x = false := by simpa using hpx
    simp [h']

/-- The priority-then-fill concatenation picks exactly 3 pairwise distinct
members of any duplicate-free list of at least 3 elements. -/
lemma select_append_props (p : Int → Bool) (dl : List Int)
    (hnd : dl.Nodup) (hlen : 3 ≤ dl.length) :
    ((dl.filter p).take 3 ++
        (dl.filter (fun d => !(dl.filter p).contains d)).take
          (3 - ((dl.filter p).take 3).length)).length = 3 ∧
      ((dl.filter p).take 3 ++
        (dl.filter (fun d => !(dl.filter p).contains d)).take
          (3 - ((dl.filter p).take 3).length)).Nodup ∧
      ∀ x ∈ (dl.filter p).take 3 ++
        (dl.filter (fun d => !(dl.filter p).contains d)).take
          (3 - ((dl.filter p).take 3).length), x ∈ dl := by
  have hothers : dl.filter (fun d => !(dl.filter p).contains d) =
      dl.filter (fun d => !p d) := by
    apply List.filter_congr
    intro x hx
    rw [contains_eq_of_filter hx]
  have hpart := length_filter_partition p dl
  have hfin_len : ((dl.filter p).take 3).length = min 3 (dl.filter p).length :=
    List.length_take 3 _
  have hothers_len : (dl.filter (fun d => !(dl.filter p).contains d)).length =
      dl.length - (dl.filter p).length := by
    rw [hothers]; omega
  have htail_len : ((dl.filter (fun d => !(dl.filter p).contains d)).take
      (3 - ((dl.filter p).take 3).length)).length = 3 - ((dl.filter p).take 3).length := by
    rw [List.length_take]; omega
  refine ⟨?_, ?_, ?_⟩
  · rw [List.length_append, htail_len]; omega
  · rw [List.nodup_append]
    refine ⟨((List.take_sublist _ _).trans (List.filter_sublist _)).nodup hnd, ?_, ?_⟩
    · exact ((List.take_sublist _ _).trans
        (hothers ▸ List.filter_sublist dl)).nodup hnd
    · intro x hxp hxo
      have hp : p x = true := (List.mem_filter.mp (List.take_subset _ _ hxp)).2
      have hno := List.take_subset _ _ hxo
      rw [hothers] at hno
      have : (!p x) = true := (List.mem_filter.mp hno).2
      simp [hp] at this
  · intro x hx
    rcases List.mem_append.mp hx with h | h
    · exact (List.filter_sublist _).subset (List.take_subset _ _ h)
    · have := List.take_subset _ _ h
      rw [hothers] at this
      exact (List.filter_sublist _).subset this

/-- The selection step returns exactly 3 pairwise distinct members of any
duplicate-free enumeration of at least 3 pool elements. -/
lemma selectFinal_props (v : Variant) (ns : List Int) (dl : List Int)
    (hnd : dl.Nodup) (hlen : 3 ≤ dl.length) :
    (selectFinal v ns dl).length = 3 ∧ (selectFinal v ns dl).Nodup ∧
      ∀ x ∈ selectFinal v ns dl, x ∈ dl := by
  unfold selectFinal
  by_cases h2 : 2 ≤ ns.length
  · rw [if_pos h2]
    have happ := select_append_props (fun d => priorityPred v ns d) dl hnd hlen
    by_cases hneed : 0 < 3 - ((dl.filter (fun d => priorityPred v ns d)).take 3).length
    · rw [if_pos hneed]
      exact happ
    · rw [if_neg hneed]
      have hzero : 3 - ((dl.filter (fun d => priorityPred v ns d)).take 3).length = 0 := by
        omega
      rw [hzero, List.take_zero, List.append_nil] at happ
      exact happ
  · rw [if_neg h2]
    refine ⟨?_, (List.take_sublist _ _).nodup hnd, fun x hx => List.take_subset _ _ hx⟩
    rw [List.length_take]; omega

/-- Every member of a successful backfill result passes the acceptance
test, provided the initial pool did. -/
lemma backfill_mem {limit : Option Int} {correct : Int} {σ : Nat → Nat} :
    ∀ {fuel i : Nat} {pool pool2 : Finset Int},
      backfill limit correct σ i fuel pool = some pool2 →
      (∀ x ∈ pool, backfillCheck limit correct x = true) →
      (∀ x ∈ pool2, backfillCheck limit correct x = true) ∧ 3 ≤ pool2.card := by
  intro fuel
  induction fuel with
  | zero =>
    intro i pool pool2 h hP
    unfold backfill at h
    by_cases hc : 3 ≤ pool.card
    · rw [if_pos hc] at h
      cases h
      exact ⟨hP, hc⟩
    · rw [if_neg hc] at h
      cases h
  | succ n ih =>
    intro i pool pool2 h hP
    unfold backfill at h
    by_cases hc : 3 ≤ pool.card
    · rw [if_pos hc] at h
      cases h
      exact ⟨hP, hc⟩
    · rw [if_neg hc] at h
      by_cases hchk : backfillCheck limit correct (correct + offsetList.getD (σ i % 7) 0) = true
      · rw [if_pos hchk] at h
        refine ih h ?_
        intro x hx
        rcases Finset.mem_insert.mp hx with rfl | hx'
        · exact hchk
        · exact hP x hx'
      · rw [if_neg hchk] at h
        exact ih h hP

/-- Invariants of a successful run of the synthesizer's numeric core:
exactly 3 pairwise distinct distractors, each positive, different from the
correct value and within the grade ceiling, and the correct value is the
leading integer of the correct-answer text. -/
lemma generateCore_props {v : Variant} {qt ca : String} {grade : Int} {σ : Nat → Nat}
    {fuel : Nat} {c : Int} {fds : List Int}
    (h : generateCore v qt ca grade σ fuel = some (c, fds)) :
    (extract_numbers ca).head? = some c ∧ fds.length = 3 ∧ fds.Nodup ∧
      ∀ d ∈ fds, 0 < d ∧ d ≠ c ∧ leLimit d (grade_limits grade) = true := by
  unfold generateCore at h
  split at h
  · cases h
  · rename_i correct rest hca
    split at h
    · cases h
    · rename_i pool2 hbf
      injection h with h'
      have h1 : correct = c := congrArg Prod.fst h'
      have h2 : selectFinal v (extract_numbers qt) (finsetSort pool2) = fds :=
        congrArg Prod.snd h'
      subst h1
      have hinit : ∀ x ∈ ((if 2 ≤ (extract_numbers qt).length then
            buildPool v (detect_operation_and_calculate qt (extract_numbers qt)).2
              (extract_numbers qt) correct
          else ∅).erase correct).filter
          (fun d => 0 < d ∧ leLimit d (grade_limits grade) = true),
          backfillCheck (grade_limits grade) correct x = true := by
        intro x hx
        have hf := Finset.mem_filter.mp hx
        have he := Finset.mem_erase.mp hf.1
        unfold backfillCheck
        simp [hf.2.1, hf.2.2, he.1]
      obtain ⟨hmem, hcard⟩ := backfill_mem hbf hinit
      have hsort_nodup : (finsetSort pool2).Nodup := finsetSort_nodup pool2
      have hsort_len : 3 ≤ (finsetSort pool2).length := by
        rw [finsetSort_length]; exact hcard
      obtain ⟨hl, hn, hsub⟩ := selectFinal_props v (extract_numbers qt) _ hsort_nodup hsort_len
      rw [h2] at hl hn hsub
      refine ⟨by rw [hca]; rfl, hl, hn, ?_⟩
      intro d hd
      have hd2 : d ∈ pool2 := mem_finsetSort.mp (hsub d hd)
      have hchk := hmem d hd2
      unfold backfillCheck at hchk
      simp only [Bool.and_eq_true, decide_eq_true_eq] at hchk
      exact ⟨hchk.1.1, hchk.1.2, hchk.2⟩

/-- "need" is a prefix of "needed", so a text containing "needed" contains
"need"; general substring monotonicity under prefix shrinking. -/
lemma containsSub_mono {n1 n2 : List Char} (hp : n1 <+: n2) :
    ∀ {t : List Char}, containsSub n2 t = true → containsSub n1 t = true := by
  intro t
  induction t with
  | nil =>
    intro h
    unfold containsSub at h ⊢
    have h2 : n2 = [] := by simpa using h
    subst h2
    have h1 : n1 = [] := List.prefix_nil.mp hp
    simp [h1]
  | cons c cs ih =>
    intro h
    unfold containsSub at h ⊢
    rcases Bool.or_eq_true _ _ |>.mp h with h' | h'
    · have hpre : n2 <+: (c :: cs) := List.isPrefixOf_iff_prefix.mp h'
      have : n1 <+: (c :: cs) := hp.trans hpre
      rw [ List.isPrefixOf_iff_prefix.mpr this]
      rfl
    · rw [ih h']
      simp

/-! ### Claims C1-C4 -/

/-- C1: for every invocation of the distractor synthesizer
(`generate_smart_distractors`, either entry point) that returns
successfully, with correct value `c` (leading integer of the
correct-answer text) and grade ceiling `grade_limits grade`, the returned
sequence of distractor values has exactly 3 members, all pairwise
distinct, each different from `c`, and each strictly positive and within
the ceiling. -/
theorem C1_distractor_set_invariants (v : Variant) (qt ca : String) (grade : Int)
    (σ : Nat → Nat) (fuel : Nat) (c : Int) (fds : List Int)
    (h : generateCore v qt ca grade σ fuel = some (c, fds)) :
    (extract_numbers ca).head? = some c ∧ fds.length = 3 ∧ fds.Nodup ∧
      ∀ d ∈ fds, 0 < d ∧ d ≠ c ∧ leLimit d (grade_limits grade) = true :=
  generateCore_props h

theorem C1_distractor_set_invariants_witness :
    generateCore .server "add 2 and 3" "5" 1 (fun _ => 0) 10 = some (5, [1, 6, 2]) ∧
      ((extract_numbers "5").head? = some 5 ∧ ([1, 6, 2] : List Int).length = 3 ∧
        ([1, 6, 2] : List Int).Nodup ∧
        ∀ d ∈ ([1, 6, 2] : List Int), 0 < d ∧ d ≠ 5 ∧ leLimit d (grade_limits 1) = true) :=
  ⟨by decide,
    C1_distractor_set_invariants .server "add 2 and 3" "5" 1 (fun _ => 0) 10 5 [1, 6, 2]
      (by decide)⟩

/-- No draw can ever be accepted when the correct value is 100 and the
ceiling is 20: every offset candidate is above the ceiling (or equal to
the correct value for the impossible default index). -/
lemma backfill_100_20_stuck (σ : Nat → Nat) :
    ∀ (fuel i : Nat), backfill (some 20) 100 σ i fuel ∅ = none := by
  have hno : ∀ j : Nat, j < 7 →
      backfillCheck (some 20) 100 (100 + offsetList.getD j 0) = false := by decide
  intro fuel
  induction fuel with
  | zero =>
    intro i
    unfold backfill
    rw [if_neg (by simp)]
  | succ n ih =>
    intro i
    unfold backfill
    rw [if_neg (by simp)]
    rw [hno (σ i % 7) (Nat.mod_lt _ (by omega))]
    simp only [Bool.false_eq_true, if_false]
    exact ih (i + 1)

/-- C2 counterexample: the backfill loop does not terminate for every
correct value and ceiling.  With question text "x" (no numbers), correct
answer "100" and grade 1 (ceiling 20), the filtered pool is empty and no
offset candidate 100+o is ever accepted, so the synthesizer never returns,
whatever the random draws. -/
theorem C2_backfill_divergence :
    ¬ ∃ (σ : Nat → Nat) (fuel : Nat) (r : Int × List Int),
        generateCore .server "x" "100" 1 σ fuel = some r := by
  rintro ⟨σ, fuel, r, h⟩
  unfold generateCore at h
  split at h
  · cases h
  · rename_i correct rest hca
    have hca' : extract_numbers "100" = [100] := by decide
    rw [hca'] at hca
    injection hca with hc1 hc2
    subst hc1
    subst hc2
    split at h
    · cases h
    · rename_i pool2 hbf
      have hpool : (((if 2 ≤ (extract_numbers "x").length then
            buildPool Variant.server (detect_operation_and_calculate "x"
              (extract_numbers "x")).2 (extract_numbers "x") 100
          else ∅).erase 100).filter
          (fun d => 0 < d ∧ leLimit d (grade_limits 1) = true)) = (∅ : Finset Int) := by
        decide
      rw [hpool] at hbf
      have : grade_limits 1 = some 20 := rfl
      rw [this] at hbf
      rw [backfill_100_20_stuck σ fuel 0] at hbf
      cases hbf

/-- A run that has already collected 3 distractors stops at once. -/
lemma backfill_stop {limit : Option Int} {c : Int} {σ : Nat → Nat} {i fuel : Nat}
    {pool : Finset Int} (h : 3 ≤ pool.card) :
    backfill limit c σ i fuel pool = some pool := by
  cases fuel with
  | zero => unfold backfill; rw [if_pos h]
  | succ n => unfold backfill; rw [if_pos h]

/-- One accepted draw of the backfill loop. -/
lemma backfill_step_accept {limit : Option Int} {c : Int} {σ : Nat → Nat} {i fuel : Nat}
    {pool : Finset Int} (hcard : ¬ 3 ≤ pool.card)
    (hchk : backfillCheck limit c (c + offsetList.getD (σ i % 7) 0) = true) :
    backfill limit c σ i (fuel + 1) pool =
      backfill limit c σ (i + 1) fuel (insert (c + offsetList.getD (σ i % 7) 0) pool) := by
  conv_lhs => unfold backfill
  rw [if_neg hcard, if_pos hchk]

/-- C2 amended: the backfill loop terminates (for a suitable draw
sequence) whenever enough offset candidates are acceptable — in
particular whenever the correct value is non-negative and `correct + 7`
fits under the ceiling (or the ceiling is infinite), some draw sequence
reaches a pool of 3 accepted distractors. -/
theorem C2_backfill_termination (limit : Option Int) (correct : Int) (pool : Finset Int)
    (hc : 0 ≤ correct)
    (hl : limit = none ∨ ∃ l, limit = some l ∧ correct + 7 ≤ l) :
    ∃ (σ : Nat → Nat) (fuel : Nat) (pool2 : Finset Int),
      backfill limit correct σ 0 fuel pool = some pool2 ∧ 3 ≤ pool2.card := by
  have hchk : ∀ o : Int, 0 < o → o ≤ 7 →
      backfillCheck limit correct (correct + o) = true := by
    intro o ho1 ho2
    unfold backfillCheck leLimit
    rcases hl with rfl | ⟨l, rfl, hle⟩
    · simp only [Bool.and_true, Bool.and_eq_true, decide_eq_true_eq]
      exact ⟨by omega, by omega⟩
    · simp only [Bool.and_eq_true, decide_eq_true_eq]
      exact ⟨⟨by omega, by omega⟩, by omega⟩
  have e0 : offsetList.getD (drawSeq 0 % 7) 0 = 2 := by decide
  have e1 : offsetList.getD (drawSeq (0 + 1) % 7) 0 = 3 := by decide
  have e2 : offsetList.getD (drawSeq (0 + 1 + 1) % 7) 0 = 5 := by decide
  by_cases h0 : 3 ≤ pool.card
  · exact ⟨drawSeq, 1, pool, backfill_stop h0, h0⟩
  · by_cases h1 : 3 ≤ (insert (correct + 2) pool).card
    · refine ⟨drawSeq, 2, insert (correct + 2) pool, ?_, h1⟩
      rw [backfill_step_accept h0 (by rw [e0]; exact hchk 2 (by omega) (by omega)), e0]
      exact backfill_stop h1
    · by_cases h2 : 3 ≤ (insert (correct + 3) (insert (correct + 2) pool)).card
      · refine ⟨drawSeq, 3, insert (correct + 3) (insert (correct + 2) pool), ?_, h2⟩
        rw [backfill_step_accept h0 (by rw [e0]; exact hchk 2 (by omega) (by omega)), e0]
        rw [backfill_step_accept h1 (by rw [e1]; exact hchk 3 (by omega) (by omega)), e1]
        exact backfill_stop h2
      · have h3 : 3 ≤ (insert (correct + 5)
            (insert (correct + 3) (insert (correct + 2) pool))).card := by
          have hsub : ({correct + 2, correct + 3, correct + 5} : Finset Int) ⊆
              insert (correct + 5) (insert (correct + 3) (insert (correct + 2) pool)) := by
            intro x hx
            simp only [Finset.mem_insert, Finset.mem_singleton] at hx
            rcases hx with rfl | rfl | rfl <;> simp [Finset.mem_insert]
          have hcard : ({correct + 2, correct + 3, correct + 5} : Finset Int).card = 3 := by
            rw [Finset.card_insert_of_not_mem (by simp),
              Finset.card_insert_of_not_mem (by simp), Finset.card_singleton]
          calc 3 = ({correct + 2, correct + 3, correct + 5} : Finset Int).card := hcard.symm
            _ ≤ _ := Finset.card_le_card hsub
        refine ⟨drawSeq, 4,
          insert (correct + 5) (insert (correct + 3) (insert (correct + 2) pool)), ?_, h3⟩
        rw [backfill_step_accept h0 (by rw [e0]; exact hchk 2 (by omega) (by omega)), e0]
        rw [backfill_step_accept h1 (by rw [e1]; exact hchk 3 (by omega) (by omega)), e1]
        rw [backfill_step_accept h2 (by rw [e2]; exact hchk 5 (by omega) (by omega)), e2]
        exact backfill_stop h3

theorem C2_backfill_termination_witness :
    ∃ (σ : Nat → Nat) (fuel : Nat) (pool2 : Finset Int),
      backfill (some 20) 5 σ 0 fuel ∅ = some pool2 ∧ 3 ≤ pool2.card :=
  C2_backfill_termination (some 20) 5 ∅ (by decide) (Or.inr ⟨20, rfl, by decide⟩)

/-- C3: the code classifies a "how many more" text as addition (sum of all
numbers), not as subtraction with max−min: the word "more" belongs to the
addition keyword set, which is tested before the subtraction set, so the
special case of lines 37-38 (server) / 61-63 (potion) is unreachable for
texts containing "how many more".  With numbers [15, 9] the result is
(24, addition), not (6, subtraction) as the claim states. -/
theorem C3_how_many_more_is_addition :
    detect_operation_and_calculate "How many more vials: 15 or 9?"
        (extract_numbers "How many more vials: 15 or 9?") = (some 24, "addition") ∧
      (detect_operation_and_calculate "How many more vials: 15 or 9?"
        (extract_numbers "How many more vials: 15 or 9?")).2 ≠ "subtraction" := by
  constructor
  · decide
  · decide

/-- C4 counterexample: a text whose only cue word is "needed" is NOT
classified as addition: the subtraction keyword "need" matches "needed" as
a substring, so classification returns subtraction with
`numbers[0] − numbers[1]`, not addition with the sum. -/
theorem C4_needed_not_addition :
    detect_operation_and_calculate "She needed 10 vials but has 3"
        (extract_numbers "She needed 10 vials but has 3") = (some 7, "subtraction") ∧
      detect_operation_and_calculate "She needed 10 vials but has 3"
        (extract_numbers "She needed 10 vials but has 3") ≠ (some 13, "addition") := by
  constructor
  · decide
  · decide

/-- C4 amended: of the two keywords shared with the multiplication set,
only "total" is resolved in addition's favor (it is in the addition set,
which is tested first): any text containing "total" with at least two
numbers classifies as addition with the sum of all numbers.  A text
containing "needed" but no addition keyword instead classifies as
subtraction, because the subtraction keyword "need" occurs in "needed" as
a substring and subtraction is tested before multiplication. -/
theorem C4_shared_keyword_precedence (t : String) (ns : List Int) (h2 : 2 ≤ ns.length) :
    (containsStr (pyLower t) "total" = true →
      detect_operation_and_calculate t ns = (some ns.sum, "addition")) ∧
    (containsStr (pyLower t) "needed" = true →
      matchesAny (pyLower t) addition_words = false →
      (detect_operation_and_calculate t ns).2 = "subtraction") := by
  constructor
  · intro htot
    unfold detect_operation_and_calculate
    rw [if_neg (by omega)]
    have hadd : matchesAny (pyLower t) addition_words = true := by
      unfold matchesAny
      rw [List.any_eq_true]
      exact ⟨"total", by decide, htot⟩
    rw [if_pos hadd]
  · intro hneeded hadd
    unfold detect_operation_and_calculate
    rw [if_neg (by omega)]
    rw [if_neg (by simp [hadd])]
    have hsub : matchesAny (pyLower t) subtraction_words = true := by
      unfold matchesAny
      rw [List.any_eq_true]
      refine ⟨"need", by decide, ?_⟩
      exact containsSub_mono (by decide) hneeded
    rw [if_pos hsub]
    split
    · rfl
    · rfl

theorem C4_shared_keyword_precedence_witness :
    detect_operation_and_calculate "total of 2 and 3" [2, 3] = (some 5, "addition") ∧
      (detect_operation_and_calculate "She needed 10 vials but has 3" [10, 3]).2 =
        "subtraction" :=
  ⟨(C4_shared_keyword_precedence "total of 2 and 3" [2, 3] (by decide)).1 (by decide),
    (C4_shared_keyword_precedence "She needed 10 vials but has 3" [10, 3] (by decide)).2
      (by decide) (by decide)⟩

/-! ### Claims C5-C7 -/

/-- C5: the math validator fails exactly when the classifier computes a
value and the leading number of the correct-answer text differs from it;
in every other case (no computable classification, or no number in the
answer) it passes, and on mismatch the diagnostic string names the
operation, the operand list, the expected value and the actual value.
(The source's broad `except` is unreachable in this model: every
operation of the body is total.) -/
theorem C5_validator_fail_iff_mismatch (qt : String) (cs : List String) (ca : String) :
    ((validate_math_comprehensive qt cs ca).1 = false ↔
      ∃ e a rest, (detect_operation_and_calculate qt (extract_numbers qt)).1 = some e ∧
        extract_numbers ca = a :: rest ∧ a ≠ e) ∧
    (∀ e a rest, (detect_operation_and_calculate qt (extract_numbers qt)).1 = some e →
      extract_numbers ca = a :: rest → a ≠ e →
      validate_math_comprehensive qt cs ca =
        (false, "Math error: " ++
          (detect_operation_and_calculate qt (extract_numbers qt)).2 ++
          " of " ++ pyListRepr (extract_numbers qt) ++
          " should be " ++ toString e ++ ", got " ++ toString a)) := by
  unfold validate_math_comprehensive
  cases hdet : (detect_operation_and_calculate qt (extract_numbers qt)).1 with
  | none =>
    constructor
    · simp [hdet]
    · intro e a rest he
      exact Option.noConfusion he
  | some e0 =>
    cases hca : extract_numbers ca with
    | nil =>
      constructor
      · simp [hdet, hca]
      · intro e a rest _ ha
        exact List.noConfusion ha
    | cons a0 rest0 =>
      by_cases hae : a0 = e0
      · constructor
        · simp only [hdet, hca, if_pos hae]
          constructor
          · intro hfalse
            cases hfalse
          · rintro ⟨e, a, rest, he, ha, hne⟩
            injection he with he
            injection ha with ha1 ha2
            subst he
            subst ha1
            exact absurd hae hne
        · intro e a rest he ha hne
          injection he with he
          injection ha with ha1 ha2
          subst he
          subst ha1
          exact absurd hae hne
      · constructor
        · simp only [hdet, hca, if_neg hae]
          constructor
          · intro _
            exact ⟨e0, a0, rest0, rfl, rfl, hae⟩
          · intro _
            trivial
        · intro e a rest he ha hne
          injection he with he
          injection ha with ha1 ha2
          subst he
          subst ha1
          simp only [if_neg hae]

theorem C5_validator_fail_iff_mismatch_witness :
    validate_math_comprehensive "add 2 and 3" [] "9" =
      (false, "Math error: addition of [2, 3] should be 5, got 9") :=
  (C5_validator_fail_iff_mismatch "add 2 and 3" [] "9").2 5 9 [] (by decide) (by decide)
    (by decide)

/-- C6: the classifier is total and fails softly: fewer than 2 numbers
yields `insufficient_numbers`; a division keyword with no
earlier-precedence keyword and a zero second number yields
`division_by_zero` instead of computing; and no keyword at all yields
`operation_unclear` — in each case with no computed value. -/
theorem C6_classifier_soft_failures (t : String) (ns : List Int) :
    (ns.length < 2 → detect_operation_and_calculate t ns = (none, "insufficient_numbers")) ∧
    (2 ≤ ns.length →
      matchesAny (pyLower t) addition_words = false →
      matchesAny (pyLower t) subtraction_words = false →
      matchesAny (pyLower t) multiplication_words = false →
      matchesAny (pyLower t) division_words = true →
      ns.getD 1 0 = 0 →
      detect_operation_and_calculate t ns = (none, "division_by_zero")) ∧
    (2 ≤ ns.length →
      matchesAny (pyLower t) addition_words = false →
      matchesAny (pyLower t) subtraction_words = false →
      matchesAny (pyLower t) multiplication_words = false →
      matchesAny (pyLower t) division_words = false →
      detect_operation_and_calculate t ns = (none, "operation_unclear")) := by
  refine ⟨?_, ?_, ?_⟩
  · intro hlen
    unfold detect_operation_and_calculate
    rw [if_pos hlen]
  · intro hlen ha hs hm hd hz
    unfold detect_operation_and_calculate
    rw [if_neg (by omega), if_neg (by simp [ha]), if_neg (by simp [hs]),
      if_neg (by simp [hm]), if_pos hd, if_neg (by simpa using hz)]
  · intro hlen ha hs hm hd
    unfold detect_operation_and_calculate
    rw [if_neg (by omega), if_neg (by simp [ha]), if_neg (by simp [hs]),
      if_neg (by simp [hm]), if_neg (by simp [hd])]

theorem C6_classifier_soft_failures_witness :
    detect_operation_and_calculate "hello" [] = (none, "insufficient_numbers") ∧
      detect_operation_and_calculate "split 12 things among 0 friends" [12, 0] =
        (none, "division_by_zero") ∧
      detect_operation_and_calculate "xyz 1 2" [1, 2] = (none, "operation_unclear") :=
  ⟨(C6_classifier_soft_failures "hello" []).1 (by decide),
    (C6_classifier_soft_failures "split 12 things among 0 friends" [12, 0]).2.1
      (by decide) (by decide) (by decide) (by decide) (by decide) (by decide),
    (C6_classifier_soft_failures "xyz 1 2" [1, 2]).2.2
      (by decide) (by decide) (by decide) (by decide) (by decide)⟩

/-- The code's adjacent-difference check is exactly a chain condition on
the sorted list. -/
lemma all_zip_tail_iff_chain (l : List Int) :
    ((l.zip l.tail).all (fun p => decide (p.2 - p.1 ≤ 2)) = true) ↔
      List.Chain' (fun a b => b - a ≤ 2) l := by
  induction l with
  | nil => simp
  | cons a t ih =>
    cases t with
    | nil => simp
    | cons b t2 =>
      rw [show (a :: b :: t2).tail = b :: t2 from rfl]
      rw [show (a :: b :: t2).zip (b :: t2) = (a, b) :: ((b :: t2).zip t2) from rfl]
      rw [List.all_cons, List.chain'_cons]
      rw [show ((b :: t2).zip t2) = ((b :: t2).zip (b :: t2).tail) from rfl]
      rw [Bool.and_eq_true, ← ih]
      simp

/-- C7: the triviality detector returns true iff at least 3 choice texts
contain an integer and, after sorting those leading integers, every
adjacent gap is at most 2 and the full range is at most 6; with fewer
than 3 numeric choices it returns false.  The two specification examples
behave as claimed. -/
theorem C7_triviality_iff :
    (∀ choices : List String,
      has_trivial_distractors choices = true ↔
        (3 ≤ (choices.filterMap firstNumber).length ∧
          List.Chain' (fun a b => b - a ≤ 2)
            (List.insertionSort (· ≤ ·) (choices.filterMap firstNumber)) ∧
          pyMax (List.insertionSort (· ≤ ·) (choices.filterMap firstNumber)) -
            pyMin (List.insertionSort (· ≤ ·) (choices.filterMap firstNumber)) ≤ 6)) ∧
    has_trivial_distractors ["5 potions", "6 potions", "7 potions"] = true ∧
    has_trivial_distractors ["3 drops", "19 drops", "52 drops"] = false := by
  refine ⟨?_, by decide, by decide⟩
  intro choices
  unfold has_trivial_distractors
  by_cases h3 : 3 ≤ (choices.filterMap firstNumber).length
  · rw [if_pos h3, Bool.and_eq_true, all_zip_tail_iff_chain, decide_eq_true_eq]
    constructor
    · intro ⟨hc, hr⟩
      exact ⟨h3, hc, hr⟩
    · intro ⟨_, hc, hr⟩
      exact ⟨hc, hr⟩
  · simp [h3]

/-! ### Claim C8 -/

/-- The label-assignment loop succeeds exactly on at most
`labels.length` choices, pairing them with the labels in order. -/
lemma assignLabels_spec (labels : List String) :
    ∀ (cs : List String) (i : Nat), i + cs.length ≤ labels.length →
      ∃ out, assignLabels labels i cs = some out ∧
        out.map Prod.snd = cs ∧ out.map Prod.fst = (labels.drop i).take cs.length := by
  intro cs
  induction cs with
  | nil =>
    intro i _
    exact ⟨[], rfl, rfl, by simp⟩
  | cons c cs' ih =>
    intro i h
    have hi : i < labels.length := by
      simp only [List.length_cons] at h
      omega
    obtain ⟨out', hout', hsnd, hfst⟩ := ih (i + 1) (by
      simp only [List.length_cons] at h
      omega)
    refine ⟨(labels.get ⟨i, hi⟩, c) :: out', ?_, ?_, ?_⟩
    · unfold assignLabels
      rw [List.get?_eq_get hi, hout']
      rfl
    · simp [hsnd]
    · simp only [List.map_cons, hfst, List.length_cons]
      rw [List.drop_eq_getElem_cons hi]
      rfl

/-- A successful run of the potion synthesizer returns 4 choice strings:
the correct value plus the 3 distractors, shuffled. -/
lemma generate_potion_length {qt ca : String} {g : Int} {σ : Nat → Nat} {fuel : Nat}
    {perm : List String → List String} (hperm : ∀ l, (perm l).Perm l)
    {nc : List String} (h : generate_smart_distractors_potion qt ca g σ fuel perm = some nc) :
    nc.length = 4 := by
  unfold generate_smart_distractors_potion at h
  cases hc : generateCore .potion qt ca g σ fuel with
  | none =>
    rw [hc] at h
    cases h
  | some r =>
    rw [hc] at h
    injection h with h'
    obtain ⟨c, fds⟩ := r
    obtain ⟨_, hlen, _, _⟩ := generateCore_props hc
    rw [← h']
    rw [(hperm _).length_eq]
    simp [hlen]

/-- After the improvement phase, a question that arrived with 1 to 4
choices still has 1 to 4 choices: regeneration always produces exactly 4. -/
lemma improvedChoices_length (σ : Nat → Nat) (fuel : Nat)
    {perm : List String → List String} {q : Question} (hperm : ∀ l, (perm l).Perm l)
    (h1 : 1 ≤ q.choices.length) (h4 : q.choices.length ≤ 4) :
    1 ≤ (improvedChoices σ fuel perm q).length ∧
      (improvedChoices σ fuel perm q).length ≤ 4 := by
  unfold improvedChoices
  by_cases ht : has_trivial_distractors q.choices
  · rw [if_pos ht]
    cases hg : generate_smart_distractors_potion q.questionText q.correctAnswer q.grade
        σ fuel perm with
    | none =>
      show 1 ≤ q.choices.length ∧ q.choices.length ≤ 4
      exact ⟨h1, h4⟩
    | some nc =>
      show 1 ≤ nc.length ∧ nc.length ≤ 4
      have := generate_potion_length hperm hg
      omega
  · rw [if_neg ht]
    exact ⟨h1, h4⟩

/-- C8 amended: for every question that passes the duplicate,
standard/domain, grade-limit, word-count and math validations AND has
between 1 and 4 choices (the A-D label format of the assembly), assembly
never fails: if some cleaned choice matches the cleaned correct answer,
the answer key is that (last matching) choice's label; otherwise the
cleaned correct answer replaces choice A and the key is "A".  (The
original claim is falsified by questions with more than 4 — or zero —
choices, which pass every validation but die of the caught `IndexError`;
see the counterexample.) -/
theorem C8_assembly_round_trip (seen : List String) (σ : Nat → Nat) (fuel : Nat)
    (perm : List String → List String) (now : String) (q : Question)
    (hperm : ∀ l, (perm l).Perm l)
    (hv : validatePhase seen q = none)
    (h1 : 1 ≤ q.choices.length) (h4 : q.choices.length ≤ 4) :
    ∃ nq labeled,
      assignLabels choice_labels 0
          ((improvedChoices σ fuel perm q).map clean_choice_text) = some labeled ∧
      improve_question seen σ fuel perm now q =
        (some nq, "Successfully improved to production quality") ∧
      ((∃ p, (labeled.filter (fun r =>
            pyStrip r.2 = pyStrip (clean_choice_text q.correctAnswer))).getLast? = some p ∧
          nq.answerKey = p.1 ∧ nq.choices = labeled) ∨
        ((labeled.filter (fun r =>
            pyStrip r.2 = pyStrip (clean_choice_text q.correctAnswer))) = [] ∧
          nq.answerKey = "A" ∧
          nq.choices.head?.map Prod.snd = some (clean_choice_text q.correctAnswer))) := by
  obtain ⟨hl1, hl4⟩ := improvedChoices_length σ fuel hperm h1 h4
  obtain ⟨labeled, hout, hsnd, _⟩ := assignLabels_spec choice_labels
    ((improvedChoices σ fuel perm q).map clean_choice_text) 0
    (by
      simp only [List.length_map]
      have hc4 : choice_labels.length = 4 := rfl
      omega)
  have hne : labeled ≠ [] := by
    intro he
    rw [he] at hsnd
    have : ((improvedChoices σ fuel perm q).map clean_choice_text).length = 0 := by
      rw [← hsnd]
      rfl
    rw [List.length_map] at this
    omega
  have himp : improve_question seen σ fuel perm now q = assembleQuestion q now labeled := by
    unfold improve_question
    rw [hv, hout]
  cases hm : (labeled.filter (fun r =>
      pyStrip r.2 = pyStrip (clean_choice_text q.correctAnswer))).getLast? with
  | some p =>
    refine ⟨mkNewQuestion q now labeled p.1, labeled, hout, ?_, Or.inl ⟨p, hm, rfl, rfl⟩⟩
    rw [himp]
    unfold assembleQuestion
    rw [hm]
  | none =>
    have hfe : (labeled.filter (fun r =>
        pyStrip r.2 = pyStrip (clean_choice_text q.correctAnswer))) = [] :=
      List.getLast?_eq_none_iff.mp hm
    obtain ⟨⟨l0, s0⟩, rest, hlab⟩ : ∃ hd rest, labeled = hd :: rest := by
      cases labeled with
      | nil => exact absurd rfl hne
      | cons a b => exact ⟨a, b, rfl⟩
    subst hlab
    refine ⟨mkNewQuestion q now ((l0, clean_choice_text q.correctAnswer) :: rest) "A",
      (l0, s0) :: rest, hout, ?_, Or.inr ⟨hfe, rfl, ?_⟩⟩
    · rw [himp]
      unfold assembleQuestion
      rw [hm]
    · rfl

/-- C8 counterexample: a question with five choices passes the duplicate,
standard/domain, grade-limit, word-count and math validations, yet the
assembly phase fails (deletes it): the loop `choice_labels[i]` raises
`IndexError` at the fifth choice, caught as a `Processing error`. -/
theorem C8_assembly_can_fail :
    validatePhase []
        { id := "q1", grade := 3, domain := "OA", standard := "3.OA.1",
          questionText := "add 2 and 3", correctAnswer := "5",
          choices := ["5", "1", "7", "8", "9"], explanation := "e", theme := "t" } = none ∧
      improve_question [] (fun _ => 0) 10 (fun l => l) "now"
          { id := "q1", grade := 3, domain := "OA", standard := "3.OA.1",
            questionText := "add 2 and 3", correctAnswer := "5",
            choices := ["5", "1", "7", "8", "9"], explanation := "e", theme := "t" } =
        (none, "Processing error: list index out of range") := by
  constructor
  · decide
  · decide

theorem C8_assembly_round_trip_witness :
    ∃ nq labeled,
      assignLabels choice_labels 0
          ((improvedChoices (fun _ => 0) 10 (fun l => l)
            { id := "q2", grade := 3, domain := "OA", standard := "3.OA.1",
              questionText := "add 2 and 3", correctAnswer := "5",
              choices := ["5", "1", "7", "8"], explanation := "e",
              theme := "t" }).map clean_choice_text) = some labeled ∧
      improve_question [] (fun _ => 0) 10 (fun l => l) "now"
          { id := "q2", grade := 3, domain := "OA", standard := "3.OA.1",
            questionText := "add 2 and 3", correctAnswer := "5",
            choices := ["5", "1", "7", "8"], explanation := "e", theme := "t" } =
        (some nq, "Successfully improved to production quality") ∧
      ((∃ p, (labeled.filter (fun r =>
            pyStrip r.2 = pyStrip (clean_choice_text "5"))).getLast? = some p ∧
          nq.answerKey = p.1 ∧ nq.choices = labeled) ∨
        ((labeled.filter (fun r =>
            pyStrip r.2 = pyStrip (clean_choice_text "5"))) = [] ∧
          nq.answerKey = "A" ∧
          nq.choices.head?.map Prod.snd = some (clean_choice_text "5"))) :=
  C8_assembly_round_trip [] (fun _ => 0) 10 (fun l => l) "now"
    { id := "q2", grade := 3, domain := "OA", standard := "3.OA.1",
      questionText := "add 2 and 3", correctAnswer := "5",
      choices := ["5", "1", "7", "8"], explanation := "e", theme := "t" }
    (fun l => List.Perm.refl l) (by decide) (by decide) (by decide)

/-! ### Claims C9-C10 -/

/-- C9 counterexample: for an addition-classified problem with numbers
[2, 5] (so n1 = 5 ≠ 0), the server entry point's candidate pool does NOT
contain the floor quotient n0÷n1 = 0 (its addition branch adds the
quotient only when additionally n0 ≥ n1), while the potion entry point's
pool does — refuting "in both entry points". -/
theorem C9_quotient_missing_in_server_pool :
    (detect_operation_and_calculate "add 2 and 5"
        (extract_numbers "add 2 and 5")).2 = "addition" ∧
      extract_numbers "add 2 and 5" = [2, 5] ∧
      Int.fdiv 2 5 ∉ buildPool_server "addition" [2, 5] 7 ∧
      Int.fdiv 2 5 ∈ buildPool_potion "addition" [2, 5] 7 := by
  refine ⟨by decide, by decide, by decide, by decide⟩

/-- C9 amended: for every addition-classified problem with n1 ≠ 0, the
product n0×n1 is in the candidate pool of both entry points, and the
floor quotient n0÷n1 is always in the potion pool but is in the server
pool only under the additional guard n0 ≥ n1. -/
theorem C9_addition_pool_members (ns : List Int) (correct : Int)
    (h1 : ns.getD 1 0 ≠ 0) :
    ns.getD 0 0 * ns.getD 1 0 ∈ buildPool_server "addition" ns correct ∧
      ns.getD 0 0 * ns.getD 1 0 ∈ buildPool_potion "addition" ns correct ∧
      Int.fdiv (ns.getD 0 0) (ns.getD 1 0) ∈ buildPool_potion "addition" ns correct ∧
      (ns.getD 0 0 ≥ ns.getD 1 0 →
        Int.fdiv (ns.getD 0 0) (ns.getD 1 0) ∈ buildPool_server "addition" ns correct) := by
  refine ⟨?_, ?_, ?_, ?_⟩
  · simp only [buildPool_server]
    rw [if_pos trivial, if_pos h1]
    simp [Finset.mem_union, Finset.mem_insert]
  · simp only [buildPool_potion]
    rw [if_pos trivial, if_pos h1]
    simp [Finset.mem_union, Finset.mem_insert]
  · simp only [buildPool_potion]
    rw [if_pos trivial, if_pos h1]
    simp [Finset.mem_union, Finset.mem_insert]
  · intro hge
    simp only [buildPool_server]
    rw [if_pos trivial, if_pos h1, if_pos hge]
    simp [Finset.mem_union, Finset.mem_insert]

theorem C9_addition_pool_members_witness :
    (6 : Int) * 3 ∈ buildPool_server "addition" [6, 3] 9 ∧
      (6 : Int) * 3 ∈ buildPool_potion "addition" [6, 3] 9 ∧
      Int.fdiv 6 3 ∈ buildPool_potion "addition" [6, 3] 9 ∧
      ((6 : Int) ≥ 3 → Int.fdiv 6 3 ∈ buildPool_server "addition" [6, 3] 9) := by
  have h := C9_addition_pool_members [6, 3] 9 (by decide)
  exact ⟨h.1, h.2.1, h.2.2.1, h.2.2.2⟩

/-- C10: for every grade outside 1..6 the ceiling lookup falls back to
infinity: the ceiling is absent, every value passes the `<= limit` test,
the backfill acceptance test degenerates to positivity and distinctness,
the synthesizer's pool filter keeps every positive value other than the
correct one, and the batch path's grade-limit validation rejects no
number. -/
theorem C10_default_grade_unbounded (g : Int)
    (h : ¬(g = 1 ∨ g = 2 ∨ g = 3 ∨ g = 4 ∨ g = 5 ∨ g = 6)) :
    grade_limits g = none ∧
      (∀ d : Int, leLimit d (grade_limits g) = true) ∧
      (∀ c cand : Int, backfillCheck (grade_limits g) c cand =
        (decide (0 < cand) && decide (cand ≠ c))) ∧
      (∀ (pool : Finset Int) (c : Int),
        (pool.erase c).filter (fun d => 0 < d ∧ leLimit d (grade_limits g) = true) =
          (pool.erase c).filter (fun d => 0 < d)) ∧
      (∀ ns : List Int, ns.any (fun n => exceedsLimit n (grade_limits g)) = false) := by
  push_neg at h
  obtain ⟨h1, h2, h3, h4, h5, h6⟩ := h
  have hg : grade_limits g = none := by
    unfold grade_limits
    rw [if_neg h1, if_neg h2, if_neg h3, if_neg h4, if_neg h5]
  refine ⟨hg, ?_, ?_, ?_, ?_⟩
  · intro d
    rw [hg]
    rfl
  · intro c cand
    unfold backfillCheck
    rw [hg]
    rw [show ∀ x : Int, leLimit x none = true from fun _ => rfl]
    rw [Bool.and_true]
  · intro pool c
    apply Finset.filter_congr
    intro x _
    rw [hg]
    constructor
    · intro ⟨hx, _⟩
      exact hx
    · intro hx
      exact ⟨hx, rfl⟩
  · intro ns
    rw [hg]
    simp [exceedsLimit]

theorem C10_default_grade_unbounded_witness :
    grade_limits 7 = none ∧ leLimit 123456789 (grade_limits 7) = true ∧
      ([20, 10000000] : List Int).any
        (fun n => exceedsLimit n (grade_limits 7)) = false := by
  have h := C10_default_grade_unbounded 7 (by decide)
  exact ⟨h.1, h.2.1 123456789, h.2.2.2.2 [20, 10000000]⟩

end Xmlfixer
